import Mathlib

/-!
Verification development for a custom dynamic-memory allocator written in C
(free-list allocator with first/best/worst-fit policies, block splitting,
forward coalescing, and an external-fragmentation metric).

The C sources are shallowly embedded below.  Machine integers (size_t) are
modelled as Nat with explicit reduction modulo 2^64 wherever the C code can
overflow or underflow.  Pointers are modelled as Nat addresses; the NULL
pointer is address 0.  The block ledger (the linked list of struct s_block
headed at the global `base`, ordered by the next links) is modelled as a
`List Block`; the prev links of the C structure are represented implicitly
by list order.  The mmap-based Region Provider is modelled by a success
flag (`ok`) threaded into the operations that may extend the heap, with a
fresh-address counter supplying the addresses of newly mapped regions.
File logging (`log_handler`) has no effect on the ledger and is not
modelled.
-/

set_option autoImplicit false

namespace Alloc

/-- Word size of size_t: values reduce modulo 2^64. -/
def U64 : Nat := 2 ^ 64

/-- From memory.h: `#define BLOCK_SIZE 40`, the metadata overhead of a block. -/
def BLOCK_SIZE : Nat := 40

/-- From memory.h: `#define PAGESIZE 4096`. -/
def PAGESIZE : Nat := 4096

/-- From memory.h: `#define align(x) (((((x) - 1) >> 3) << 3) + 8)` on size_t,
so the subtraction and the final addition wrap modulo 2^64. -/
def align (x : Nat) : Nat := ((((x + (U64 - 1)) % U64) >>> 3) <<< 3 + 8) % U64

/-- Two-complement subtraction of size_t values (operands are reduced mod 2^64).
Models expressions such as `b->size - s` in the C code, which wrap on underflow. -/
def usub (a b : Nat) : Nat := ((a % U64) + (U64 - b % U64)) % U64

/-- Length actually granted by the OS for an mmap request: the requested
length rounded up to a whole number of pages. -/
def pageRound (len : Nat) : Nat := ((len + PAGESIZE - 1) / PAGESIZE) * PAGESIZE

/-- One entry of the block ledger, translating `struct s_block` from memory.h.
`addr` is the address of the block header; the payload (the `data` flexible
array member) starts at `addr + BLOCK_SIZE`.  `ptr` is the recorded payload
pointer field; `none` models a field that was never initialized (blocks carved
out by `split_block` never write it).  The `next`/`prev` links are represented
by the position of the block in the ledger list. -/
structure Block where
  addr : Nat
  size : Nat
  free : Bool
  ptr : Option Nat
deriving DecidableEq

/-- Payload address of a block: `b->data` in the C code. -/
def Block.data (b : Block) : Nat := b.addr + BLOCK_SIZE

/-- Global allocator state: the ledger rooted at `base` (as a list in next-link
order), the current fit `method`, and a fresh-address counter modelling the
addresses at which mmap places new regions. -/
structure AllocState where
  blocks : List Block
  method : Int
  nextRegion : Nat
deriving DecidableEq

/-- Initial state: empty heap (`base == NULL`), FirstFit, first region mapped
at a nonzero page-aligned address. -/
def initState : AllocState := ⟨[], 0, PAGESIZE⟩

/-- Best-fit walk of `find_block` (case 1): `dif` starts at PAGESIZE, an exact
match returns immediately, and a free block with `size > s` replaces the
candidate only when its slack is strictly below `dif`. -/
def findBestAux (s : Nat) : List Block → Nat → Option Block → Option Block
  | [], _, best => best
  | b :: rest, dif, best =>
    if b.free ∧ b.size = s then some b
    else if b.free ∧ s < b.size ∧ b.size - s < dif then
      findBestAux s rest (b.size - s) (some b)
    else findBestAux s rest dif best

/-- Worst-fit walk of `find_block` (case 2): `dif` starts at 0, an exact match
returns immediately, and a free block with `size > s` replaces the candidate
only when its slack is strictly above `dif`. -/
def findWorstAux (s : Nat) : List Block → Nat → Option Block → Option Block
  | [], _, best => best
  | b :: rest, dif, best =>
    if b.free ∧ b.size = s then some b
    else if b.free ∧ s < b.size ∧ dif < b.size - s then
      findWorstAux s rest (b.size - s) (some b)
    else findWorstAux s rest dif best

/-- Translation of `find_block`: dispatch on the global `method`.
Case 0 walks to the first free block with `size >= s`; case 1 is best fit;
case 2 is worst fit; any other method returns NULL at once. -/
def find_block (bs : List Block) (m : Int) (s : Nat) : Option Block :=
  if m = 0 then bs.find? (fun b => b.free && decide (s ≤ b.size))
  else if m = 1 then findBestAux s bs PAGESIZE none
  else if m = 2 then findWorstAux s bs 0 none
  else none

/-- Translation of `split_block(b, s)`: a no-op when `b->size <= s + BLOCK_SIZE`;
otherwise the block is truncated to `s` and a new free block is carved at
`b->data + s` with size `b->size - s - BLOCK_SIZE`.  The new block is linked
after `b`; its `ptr` field is left uninitialized (`none`) — the C code never
writes `new->ptr`. -/
def split_block (b : Block) (s : Nat) : List Block :=
  if b.size ≤ s + BLOCK_SIZE then [b]
  else [{ b with size := s },
        { addr := b.data + s, size := b.size - s - BLOCK_SIZE, free := true, ptr := none }]

/-- Translation of the loop of `fusion(b)` acting on `b` and the ledger suffix
after it.  The C loop runs while the next block exists and is free, but breaks
without merging when that free next block is the ledger tail
(`b->next->next == NULL`); on a merge the absorbed size is `b->next->size`
only — BLOCK_SIZE is not added. -/
def fusionList : Block → List Block → Block × List Block
  | b, [] => (b, [])
  | b, n :: rest =>
    if n.free then
      match rest with
      | [] => (b, [n])
      | _ :: _ => fusionList { b with size := b.size + n.size } rest
    else (b, n :: rest)

/-- Translation of `get_block(p)`: the header sits BLOCK_SIZE bytes before the
payload address. -/
def get_block (p : Nat) : Nat := p - BLOCK_SIZE

/-- First ledger entry whose header address is `a` (the C walk of `valid_addr`
compares node addresses). -/
def blockAt : List Block → Nat → Option Block
  | [], _ => none
  | b :: rest, a => if b.addr = a then some b else blockAt rest a

/-- Translation of `valid_addr(p)`: NULL pointer or empty ledger is invalid;
otherwise walk the ledger for the node at `get_block(p)` and, when found,
accept exactly when its recorded `ptr` field equals `p`; an address whose
header is not in the ledger yields INVALID_ADDR (0). -/
def valid_addr (st : AllocState) (p : Nat) : Bool :=
  if p = 0 ∨ st.blocks = [] then false
  else
    match blockAt st.blocks (get_block p) with
    | some b => decide (b.ptr = some p)
    | none => false

/-- The fresh block written by `extend_heap` at the start of a newly mapped
region: size `s`, not free, and `ptr` initialized to `b->data`. -/
def newBlock (base : Nat) (s : Nat) : Block :=
  { addr := base, size := s, free := false, ptr := some (base + BLOCK_SIZE) }

/-- Distance to the next modelled mmap region.  The region granted for a
request of `s` bytes spans `pageRound s` bytes; a further page of slack keeps
distinct regions disjoint even though the block metadata plus payload
(`BLOCK_SIZE + s` bytes) can overrun the granted region. -/
def regionStride (s : Nat) : Nat := pageRound s + PAGESIZE

/-- Where `extend_heap(last, s)` links the new block.  For methods 0, 1, 2 the
`last` pointer computed by `find_block` is the ledger tail, so the new block is
appended; for any other method `find_block` returns at once and `last` still
points at `base`, so the new block is linked right after the head and the rest
of the chain is lost. -/
def attachNew (bs : List Block) (m : Int) (nb : Block) : List Block :=
  if m = 0 ∨ m = 1 ∨ m = 2 then bs ++ [nb]
  else
    match bs with
    | [] => [nb]
    | h :: _ => [h, nb]

/-- Mark the head block of a list as not free (`b->free = 0` after a hit). -/
def markUsedHead : List Block → List Block
  | [] => []
  | b :: r => { b with free := false } :: r

/-- Effect on the ledger of a `my_malloc` hit on the block at address `a`:
split when `(b->size - s) >= (BLOCK_SIZE + 4)` (size_t arithmetic), then mark
the block not free.  The recorded `ptr` field of the reused block is not
touched. -/
def mallocHit : List Block → Nat → Nat → List Block
  | [], _, _ => []
  | b :: rest, a, s =>
    if b.addr = a then
      markUsedHead (if BLOCK_SIZE + 4 ≤ usub b.size s then split_block b s else [b]) ++ rest
    else b :: mallocHit rest a s

/-- Translation of `my_malloc(size)`.  `ok` tells whether the single possible
mmap call succeeds.  Returns the payload address (`b->data`) and the new
state. -/
def my_malloc (ok : Bool) (st : AllocState) (size : Nat) : Option Nat × AllocState :=
  let s := align size
  match st.blocks with
  | [] =>
    if ok then
      (some (st.nextRegion + BLOCK_SIZE),
       { st with blocks := [newBlock st.nextRegion s],
                 nextRegion := st.nextRegion + regionStride s })
    else (none, st)
  | _ :: _ =>
    match find_block st.blocks st.method s with
    | some b =>
      (some b.data, { st with blocks := mallocHit st.blocks b.addr s })
    | none =>
      if ok then
        (some (st.nextRegion + BLOCK_SIZE),
         { st with blocks := attachNew st.blocks st.method (newBlock st.nextRegion s),
                   nextRegion := st.nextRegion + regionStride s })
      else (none, st)

/-- Ledger effect of `my_free` on a valid address: mark the block free, run
`fusion`, and if the (possibly merged) block has no successor remove it from
the ledger (the C code resets `base` or clears `prev->next` and then calls
brk; the backing region is gone from the ledger either way). -/
def freeAt : List Block → Nat → List Block
  | [], _ => []
  | b :: rest, a =>
    if b.addr = a then
      match fusionList { b with free := true } rest with
      | (_, []) => []
      | (b', n :: rest') => b' :: n :: rest'
    else b :: freeAt rest a

/-- Translation of `my_free(ptr)`: a no-op unless `valid_addr` accepts the
address. -/
def my_free (st : AllocState) (p : Nat) : AllocState :=
  if valid_addr st p then { st with blocks := freeAt st.blocks (get_block p) } else st

/-- Capacity returned by a successful `my_calloc(number, size)`: the aligned
product (size_t multiplication wraps modulo 2^64). -/
def calloc_capacity (number size : Nat) : Nat := align (number * size % U64)

/-- Number of size_t cells zeroed by the `my_calloc` loop:
`s4 = align(number * size) << 2` and the loop runs `i` from 0 to `s4 - 1`
writing `new[i] = 0` on a `size_t*`. -/
def calloc_zero_cells (number size : Nat) : Nat :=
  (align (number * size % U64) <<< 2) % U64

/-- Bytes zeroed by the `my_calloc` loop: `s4` cells of 8 bytes each, starting
at the returned payload address. -/
def calloc_zeroed_bytes (number size : Nat) : Nat := calloc_zero_cells number size * 8

/-- Translation of `my_calloc(number, size)`: NULL on a zero argument,
otherwise delegate to `my_malloc(number * size)` (the zeroing loop touches the
payload bytes, not the ledger). -/
def my_calloc (ok : Bool) (st : AllocState) (number size : Nat) : Option Nat × AllocState :=
  if number = 0 ∨ size = 0 then (none, st)
  else my_malloc ok st (number * size % U64)

/-- First ledger entry at address `a` together with its successor, as
`my_realloc` reads `b` and `b->next`. -/
def lookupWithNext : List Block → Nat → Option (Block × Option Block)
  | [], _ => none
  | [b], a => if b.addr = a then some (b, none) else none
  | b :: n :: rest, a =>
    if b.addr = a then some (b, some n) else lookupWithNext (n :: rest) a

/-- The in-place growth test of `my_realloc`:
`b->next && b->next->free && (b->size + BLOCK_SIZE + b->next->size) >= s`. -/
def growCond (b : Block) (onext : Option Block) (s : Nat) : Bool :=
  match onext with
  | some n => n.free && decide (s ≤ b.size + BLOCK_SIZE + n.size)
  | none => false

/-- Ledger effect of the shrink branch of `my_realloc` (`b->size >= s`):
split when `b->size - s >= BLOCK_SIZE + 4`. -/
def reallocShrink : List Block → Nat → Nat → List Block
  | [], _, _ => []
  | b :: rest, a, s =>
    if b.addr = a then
      (if BLOCK_SIZE + 4 ≤ usub b.size s then split_block b s else [b]) ++ rest
    else b :: reallocShrink rest a s

/-- Ledger effect of the in-place growth branch of `my_realloc`: `fusion(b)`
then split when `b->size - s >= BLOCK_SIZE + 4` (size_t arithmetic, so the
comparison can pass by underflow when the merged size is still below `s`). -/
def reallocGrow : List Block → Nat → Nat → List Block
  | [], _, _ => []
  | b :: rest, a, s =>
    if b.addr = a then
      match fusionList b rest with
      | (b', rest') =>
        (if BLOCK_SIZE + 4 ≤ usub b'.size s then split_block b' s else [b']) ++ rest'
    else b :: reallocGrow rest a s

/-- Translation of `my_realloc(ptr, size)`.  NULL pointer falls back to
`my_malloc`; an address rejected by `valid_addr` returns NULL with the state
untouched; otherwise the shrink, in-place growth, or relocation branch runs.
In the relocation branch the C code calls `my_malloc(s)` (s already aligned),
returns NULL at once if it fails, and otherwise copies the payload
(`copy_block`, no ledger effect) and frees the old block. -/
def my_realloc (ok : Bool) (st : AllocState) (p : Nat) (size : Nat) :
    Option Nat × AllocState :=
  if p = 0 then my_malloc ok st size
  else if valid_addr st p then
    let s := align size
    let a := get_block p
    match lookupWithNext st.blocks a with
    | none => (none, st)
    | some (b, onext) =>
      if s ≤ b.size then
        (some p, { st with blocks := reallocShrink st.blocks a s })
      else if growCond b onext s then
        (some p, { st with blocks := reallocGrow st.blocks a s })
      else
        match my_malloc ok st s with
        | (none, st') => (none, st')
        | (some newp, st') => (some newp, my_free st' p)
  else (none, st)

/-- Translation of `set_method(m)`. -/
def set_method (st : AllocState) (m : Int) : AllocState := { st with method := m }

/-- Translation of `malloc_control(m)`: methods 0, 1, 2 are installed via
`set_method`; any other value only prints an error message (the Bool in the
result records whether the error was reported) and changes nothing. -/
def malloc_control (st : AllocState) (m : Int) : AllocState × Bool :=
  if m = 0 then (set_method st 0, false)
  else if m = 1 then (set_method st 1, false)
  else if m = 2 then (set_method st 2, false)
  else (st, true)

/-- First loop of `external_frag`: the maximum size among not-free blocks,
accumulated from 0. -/
def maxLiveSize (bs : List Block) : Nat :=
  bs.foldl (fun m b => if !b.free && decide (m < b.size) then b.size else m) 0

/-- Second loop of `external_frag`: accumulate `(total_free, total)` where
free blocks of size strictly below `maxs` feed the first sum and every block
feeds the second. -/
def fragSums (bs : List Block) (maxs : Nat) : Nat × Nat :=
  bs.foldl
    (fun acc b =>
      ((if b.free && decide (b.size < maxs) then acc.1 + b.size else acc.1),
       acc.2 + b.size))
    (0, 0)

/-- Translation of `external_frag()`: `(total_free / total) * 100` computed in
floating point.  The sums are integers, so they are modelled exactly in ℚ; the
0/0 NaN produced on an empty heap is modelled by the `none` sentinel. -/
def external_frag (bs : List Block) : Option ℚ :=
  let maxs := maxLiveSize bs
  let tf := (fragSums bs maxs).1
  let t := (fragSums bs maxs).2
  if t = 0 then none else some ((tf : ℚ) / (t : ℚ) * 100)

/-- The adjacent-free-blocks anomaly flagged by the `check_heap` walk:
`current->free && current->next && current->next->free`. -/
def hasAdjacentFree : List Block → Bool
  | [] => false
  | [_] => false
  | b :: n :: rest => (b.free && n.free) || hasAdjacentFree (n :: rest)

/-- Length that `extend_heap(last, s)` requests from the Region Provider:
the C call is `mmap(0, s, ...)`, so exactly `s` bytes are requested — the
BLOCK_SIZE bytes of metadata are not added. -/
def extend_heap_request (s : Nat) : Nat := s

/-- Bytes actually occupied by the block that `extend_heap` lays out at the
start of the new region: the `struct s_block` header (BLOCK_SIZE bytes,
fields through `data`) followed by `s` payload bytes, since `b->size = s` and
the payload starts at `b->data`. -/
def block_extent (s : Nat) : Nat := BLOCK_SIZE + s

end Alloc

namespace Alloc

/-! ### Spec-side definitions (following the words of the specification) -/

/-- First free block of the ledger whose size matches `s` exactly, in walk
order from the head — the block the spec says an exact-size match returns
immediately. -/
def firstExactFit : List Block → Nat → Option Block
  | [], _ => none
  | b :: rest, s => if b.free = true ∧ b.size = s then some b else firstExactFit rest s

/-- Maximum size among the not-free blocks of the ledger, written the way the
spec describes it (for comparison with the `maxLiveSize` loop). -/
def specMaxLive (bs : List Block) : Nat :=
  ((bs.filter fun b => !b.free).map Block.size).foldr max 0

/-- Sum of the sizes of the free blocks whose size is strictly below `maxs`. -/
def sumFreeBelow (bs : List Block) (maxs : Nat) : Nat :=
  ((bs.filter fun b => b.free && decide (b.size < maxs)).map Block.size).sum

/-- The `unusable_free` quantity of the spec: sizes of free blocks strictly
smaller than the maximum live size. -/
def specUnusableFree (bs : List Block) : Nat := sumFreeBelow bs (specMaxLive bs)

/-- Sum of the sizes of all blocks of the ledger. -/
def specTotal (bs : List Block) : Nat := (bs.map Block.size).sum

/-! ### Example states reached through the public operations -/

/-- State after `my_malloc(1); my_malloc(1); my_malloc(1)` from the empty
heap: three not-free blocks of (aligned) size 8. -/
def stThree : AllocState :=
  (my_malloc true (my_malloc true (my_malloc true initState 1).2 1).2 1).2

/-- `stThree` after freeing the first two payload addresses (4136 and 12328). -/
def stTwoFreed : AllocState := my_free (my_free stThree 4136) 12328

/-- State after `my_malloc(1); my_malloc(1)` and then freeing both returned
addresses (4136 first, 12328 second): the first block stays in the ledger as
a free tail block. -/
def stFreeTail : AllocState :=
  my_free (my_free (my_malloc true (my_malloc true initState 1).2 1).2 4136) 12328

/-- `stThree` after freeing only the middle payload address 12328. -/
def stMidFree : AllocState := my_free stThree 12328

/-- A heap with a single live block of size 8 at header address 4096
(the state right after `my_malloc(1)` from the empty heap). -/
def stOne : AllocState := ⟨[⟨4096, 8, false, some 4136⟩], 0, 12288⟩

/-- State after `my_malloc(100) = 4136; my_malloc(8); my_free(4136);
my_malloc(8); my_malloc(40)` from the empty heap: the last allocation reuses
the free block carved by `split_block` (header 4144, uninitialized `ptr`)
and returns payload address 4184. -/
def stSplitReuse : AllocState :=
  (my_malloc true
    (my_malloc true
      (my_free (my_malloc true (my_malloc true initState 100).2 8).2 4136)
      8).2
    40).2

theorem stThree_eq :
    stThree = ⟨[⟨4096, 8, false, some 4136⟩, ⟨12288, 8, false, some 12328⟩,
                ⟨20480, 8, false, some 20520⟩], 0, 28672⟩ := by decide

theorem stSplitReuse_eq :
    stSplitReuse = ⟨[⟨4096, 8, false, some 4136⟩, ⟨4144, 56, false, none⟩,
                     ⟨12288, 8, false, some 12328⟩], 0, 20480⟩ := by decide

end Alloc

namespace Alloc

/-! ### Claim theorems -/

/-- Claim C1 (code bug).  The spec requires `extend_heap` to acquire a region
sized to the aligned request length plus the block metadata overhead, so that
the payload of a successful `allocate(n)` can hold `n` bytes inside the
region.  The code instead passes only the aligned length `s` to mmap.  At
request size 4064 the aligned length is 4064, the OS grants a single
4096-byte page, yet header plus payload need 4104 bytes: the block overruns
its backing region, so the claimed region sizing (and the non-overlap
consequence) fails.  `my_malloc` does return an address for this request. -/
theorem c1_extend_heap_region_short_of_metadata :
    extend_heap_request (align 4064) = 4064 ∧
    block_extent (align 4064) = 4104 ∧
    pageRound (extend_heap_request (align 4064)) = 4096 ∧
    pageRound (extend_heap_request (align 4064)) < block_extent (align 4064) ∧
    (∀ s, extend_heap_request s ≠ s + BLOCK_SIZE) ∧
    (my_malloc true initState 4064).1 = some (PAGESIZE + BLOCK_SIZE) := by
  refine ⟨by decide, by decide, by decide, by decide, ?_, by decide⟩
  intro s
  simp [extend_heap_request, BLOCK_SIZE]

/-- Claim C2 (code bug).  `my_calloc(1, 1)` delegates to `my_malloc(1)` and
gets a block of capacity `align(1) = 8` bytes, but its zeroing loop writes
`align(1) << 2 = 32` cells of 8 bytes each, i.e. 256 bytes starting at the
returned payload address — far outside the returned capacity, contradicting
the claim that zero is written to no byte outside the capacity. -/
theorem c2_calloc_zeroes_beyond_capacity :
    calloc_capacity 1 1 = 8 ∧
    calloc_zero_cells 1 1 = 32 ∧
    calloc_zeroed_bytes 1 1 = 256 ∧
    calloc_capacity 1 1 < calloc_zeroed_bytes 1 1 ∧
    my_calloc true initState 1 1 = my_malloc true initState 1 := by
  refine ⟨by decide, by decide, by decide, by decide, ?_⟩
  decide

/-- Claim C3, counterexample.  A ledger holding one free block of size 4104
can serve a request of (aligned) size 8, yet the best-fit walk returns NULL,
because its running difference starts at PAGESIZE = 4096 and the slack
4104 - 8 = 4096 is not strictly below it; `my_malloc` then extends the heap.
This refutes the claim that best fit returns a block whenever some free block
of sufficient size exists. -/
theorem c3_counterexample_best_fit_misses_fitting_block :
    (Block.free ⟨4096, 4104, true, some 4136⟩ = true ∧
     8 ≤ Block.size ⟨4096, 4104, true, some 4136⟩) ∧
    find_block [⟨4096, 4104, true, some 4136⟩] 1 8 = none ∧
    (my_malloc true ⟨[⟨4096, 4104, true, some 4136⟩], 1, 12288⟩ 8).2.blocks =
      [⟨4096, 4104, true, some 4136⟩, newBlock 12288 8] := by
  refine ⟨⟨rfl, by decide⟩, by decide, by decide⟩

/-- Claim C4 (code bug).  Starting from the empty heap, the public sequence
`my_malloc(1) = 4136; my_malloc(1) = 12328; my_malloc(1); my_free(4136);
my_free(12328)` ends with the first two ledger blocks both marked free:
`my_free` never coalesces with the previous block, so the eager-coalescing
invariant claimed by the spec (and checked as an anomaly by `check_heap`)
is violated at the end of a public operation. -/
theorem c4_adjacent_free_blocks_after_public_ops :
    (my_malloc true initState 1).1 = some 4136 ∧
    (my_malloc true (my_malloc true initState 1).2 1).1 = some 12328 ∧
    stTwoFreed.blocks =
      [⟨4096, 8, true, some 4136⟩, ⟨12288, 8, true, some 12328⟩,
       ⟨20480, 8, false, some 20520⟩] ∧
    hasAdjacentFree stTwoFreed.blocks = true := by
  refine ⟨by decide, by decide, by decide, by decide⟩

/-- Claim C5 (code bug).  In `stMidFree` the block at payload address 4136
has capacity 8, its successor is free with capacity 8, and
`8 + BLOCK_SIZE + 8 = 56 ≥ 48 = align 48`, so the in-place growth branch of
`my_realloc(4136, 48)` runs.  But `fusion` adds only the absorbed size —
not BLOCK_SIZE — so the block ends with capacity 16 < 48 even though the
same address is returned: the claimed post-condition (capacity at least the
aligned new size) fails. -/
theorem c5_realloc_in_place_growth_capacity_short :
    blockAt stMidFree.blocks 4096 = some ⟨4096, 8, false, some 4136⟩ ∧
    lookupWithNext stMidFree.blocks 4096 =
      some (⟨4096, 8, false, some 4136⟩, some ⟨12288, 8, true, some 12328⟩) ∧
    growCond ⟨4096, 8, false, some 4136⟩ (some ⟨12288, 8, true, some 12328⟩)
      (align 48) = true ∧
    (my_realloc true stMidFree 4136 48).1 = some 4136 ∧
    blockAt (my_realloc true stMidFree 4136 48).2.blocks 4096 =
      some ⟨4096, 16, false, some 4136⟩ ∧
    16 < align 48 := by
  refine ⟨by decide, by decide, by decide, by decide, by decide, by decide⟩

/-- Claim C6, counterexample.  After `my_malloc(1) = 4136; my_malloc(1) =
12328; my_free(4136); my_free(12328)` the ledger still holds the first block,
already freed, at payload address 4136 (`stFreeTail`).  Releasing 4136 a
second time is not a no-op: `valid_addr` accepts the already-freed address
(its recorded `ptr` field still matches), the free path reruns, and the block
is removed from the ledger — the ledger mutates. -/
theorem c6_counterexample_second_release_mutates_ledger :
    stFreeTail.blocks = [⟨4096, 8, true, some 4136⟩] ∧
    valid_addr stFreeTail 4136 = true ∧
    my_free stFreeTail 4136 ≠ stFreeTail ∧
    (my_free stFreeTail 4136).blocks = [] := by
  refine ⟨by decide, by decide, by decide, by decide⟩

end Alloc

namespace Alloc

/-! ### Helper lemmas -/

theorem blockAt_ne_nil {bs : List Block} {a : Nat} {b : Block}
    (h : blockAt bs a = some b) : bs ≠ [] := by
  intro he
  rw [he] at h
  simp [blockAt] at h

theorem valid_addr_false_of_ptr_none (st : AllocState) (p : Nat) (b : Block)
    (hb : blockAt st.blocks (get_block p) = some b) (hptr : b.ptr = none) :
    valid_addr st p = false := by
  unfold valid_addr
  by_cases hp : p = 0 ∨ st.blocks = []
  · simp [hp]
  · rw [if_neg hp, hb]
    simp [hptr]

theorem my_free_of_invalid (st : AllocState) (p : Nat)
    (h : valid_addr st p = false) : my_free st p = st := by
  simp [my_free, h]

theorem my_realloc_of_invalid (ok : Bool) (st : AllocState) (p : Nat) (sz : Nat)
    (hp : p ≠ 0) (h : valid_addr st p = false) :
    my_realloc ok st p sz = (none, st) := by
  simp [my_realloc, hp, h]

theorem my_malloc_oom_no_change (st : AllocState) (sz : Nat)
    (hne : st.blocks ≠ [])
    (hmiss : find_block st.blocks st.method (align sz) = none) :
    my_malloc false st sz = (none, st) := by
  obtain ⟨b, rest, hbs⟩ := List.exists_cons_of_ne_nil hne
  rw [hbs] at hmiss
  simp [my_malloc, hbs, hmiss]

/-- Claim C9 (confirmed).  `malloc_control` with a value outside {0, 1, 2}
reports an error and leaves the active policy and the ledger unchanged, with
no default reset; values 0, 1 and 2 install exactly that policy through
`set_method`, and the ledger is never touched. -/
theorem c9_malloc_control_policy_selection (st : AllocState) (m : Int) :
    ((m ≠ 0 ∧ m ≠ 1 ∧ m ≠ 2) → malloc_control st m = (st, true)) ∧
    ((m = 0 ∨ m = 1 ∨ m = 2) →
      malloc_control st m = (set_method st m, false) ∧
      (malloc_control st m).1.method = m) ∧
    (malloc_control st m).1.blocks = st.blocks := by
  by_cases h0 : m = 0
  · subst h0; simp [malloc_control, set_method]
  · by_cases h1 : m = 1
    · subst h1; simp [malloc_control, set_method]
    · by_cases h2 : m = 2
      · subst h2; simp [malloc_control, set_method]
      · simp [malloc_control, set_method, h0, h1, h2]

theorem c9_malloc_control_witness :
    malloc_control initState 5 = (initState, true) ∧
    malloc_control initState 2 = (set_method initState 2, false) :=
  ⟨(c9_malloc_control_policy_selection initState 5).1 ⟨by decide, by decide, by decide⟩,
   ((c9_malloc_control_policy_selection initState 2).2.1 (Or.inr (Or.inr rfl))).1⟩

/-- Claim C6, amended (corrected).  Release on an address that fails ledger
resolution is a silent no-op: no error is signalled and the ledger is not
mutated.  However an address that was already freed can still pass
resolution — whenever its block is still in the ledger with the recorded
payload-pointer field equal to the address — and release then reruns the
whole free path, which can mutate the ledger (see the counterexample, where
a second release removes a free tail block). -/
theorem c6_release_noop_on_resolution_failure (st : AllocState) (p : Nat) :
    (valid_addr st p = false → my_free st p = st) ∧
    (∀ b, p ≠ 0 → blockAt st.blocks (get_block p) = some b → b.ptr = some p →
      valid_addr st p = true) := by
  constructor
  · exact my_free_of_invalid st p
  · intro b hp hb hptr
    have hne : st.blocks ≠ [] := blockAt_ne_nil hb
    unfold valid_addr
    rw [if_neg (by simp [hp, hne]), hb]
    simp [hptr]

theorem c6_release_noop_witness :
    my_free stOne 5000 = stOne ∧ valid_addr stFreeTail 4136 = true :=
  ⟨(c6_release_noop_on_resolution_failure stOne 5000).1 (by decide),
   (c6_release_noop_on_resolution_failure stFreeTail 4136).2
     ⟨4096, 8, true, some 4136⟩ (by decide) (by decide) rfl⟩

/-- Claim C7 (confirmed).  When `my_realloc` takes the relocation path (the
resolved block is too small and in-place growth is impossible) and the fresh
allocation fails — no free block fits and the mmap call fails — the call
returns the NULL/OutOfMemory result and the state is returned exactly as it
was: the original block, its fields and the whole ledger are untouched, so
the address still resolves afterwards. -/
theorem c7_realloc_relocation_oom_preserves_state (st : AllocState) (p sz : Nat)
    (b : Block) (onext : Option Block)
    (hv : valid_addr st p = true)
    (hlk : lookupWithNext st.blocks (get_block p) = some (b, onext))
    (hsmall : b.size < align sz)
    (hgrow : growCond b onext (align sz) = false)
    (hmiss : find_block st.blocks st.method (align (align sz)) = none) :
    my_realloc false st p sz = (none, st) := by
  have hp0 : p ≠ 0 := by
    intro h
    rw [valid_addr] at hv
    simp [h] at hv
  have hne : st.blocks ≠ [] := by
    intro h
    rw [valid_addr] at hv
    simp [h] at hv
  have hmal : my_malloc false st (align sz) = (none, st) :=
    my_malloc_oom_no_change st (align sz) hne hmiss
  simp [my_realloc, hp0, hv, hlk, hgrow, not_le.mpr hsmall, hmal]

theorem c7_realloc_oom_witness :
    my_realloc false stOne 4136 100 = (none, stOne) :=
  c7_realloc_relocation_oom_preserves_state stOne 4136 100
    ⟨4096, 8, false, some 4136⟩ none
    (by decide) (by decide) (by decide) (by decide) (by decide)

end Alloc

namespace Alloc

theorem mallocHit_preserves_ptr (bs : List Block) (a s : Nat) (b : Block)
    (hb : blockAt bs a = some b) :
    ∃ b', blockAt (mallocHit bs a s) a = some b' ∧
      b'.ptr = b.ptr ∧ b'.free = false ∧ b'.addr = b.addr := by
  induction bs with
  | nil => simp [blockAt] at hb
  | cons h rest ih =>
    by_cases ha : h.addr = a
    · have hbh : b = h := by
        rw [blockAt, if_pos ha] at hb
        exact (Option.some_inj.mp hb).symm
      subst hbh
      by_cases hc : BLOCK_SIZE + 4 ≤ usub b.size s
      · by_cases hs : b.size ≤ s + BLOCK_SIZE
        · refine ⟨{ b with free := false }, ?_, rfl, rfl, rfl⟩
          simp [mallocHit, ha, hc, split_block, hs, markUsedHead, blockAt]
        · refine ⟨{ b with size := s, free := false }, ?_, rfl, rfl, rfl⟩
          simp [mallocHit, ha, hc, split_block, hs, markUsedHead, blockAt]
      · refine ⟨{ b with free := false }, ?_, rfl, rfl, rfl⟩
        simp [mallocHit, ha, hc, markUsedHead, blockAt]
    · rw [blockAt, if_neg ha] at hb
      obtain ⟨b', h1, h2, h3, h4⟩ := ih hb
      refine ⟨b', ?_, h2, h3, h4⟩
      rw [mallocHit, if_neg ha, blockAt, if_neg ha]
      exact h1

/-- Claim C10 (confirmed).  A block carved out by `split_block` never has its
recorded payload-pointer field written — only `extend_heap` initializes it —
and an allocation hit leaves the field of the reused block exactly as it was
while returning `b->data`.  Hence, for a payload address whose ledger entry
carries an uninitialized field (which, being unwritten garbage, is modelled
as matching no address; the claim itself excepts the coincidence where the
garbage equals the address), `my_free` is a no-op and `my_realloc` returns
the NULL failure result with the state unchanged. -/
theorem c10_split_block_ptr_uninitialized :
    (∀ b s, ∀ nb ∈ (split_block b s).drop 1, nb.ptr = none) ∧
    (∀ base s, (newBlock base s).ptr = some (base + BLOCK_SIZE)) ∧
    (∀ bs a s b, blockAt bs a = some b →
      ∃ b', blockAt (mallocHit bs a s) a = some b' ∧
        b'.ptr = b.ptr ∧ b'.free = false ∧ b'.addr = b.addr) ∧
    (∀ st p b, p ≠ 0 → blockAt st.blocks (get_block p) = some b → b.ptr = none →
      my_free st p = st ∧ ∀ ok sz, my_realloc ok st p sz = (none, st)) := by
  refine ⟨?_, fun _ _ => rfl, mallocHit_preserves_ptr, ?_⟩
  · intro b s nb hnb
    rw [split_block] at hnb
    by_cases hs : b.size ≤ s + BLOCK_SIZE
    · simp [hs] at hnb
    · simp only [hs, if_false, List.drop, List.mem_singleton] at hnb
      rw [hnb]
  · intro st p b hp hb hptr
    have hv : valid_addr st p = false := valid_addr_false_of_ptr_none st p b hb hptr
    exact ⟨my_free_of_invalid st p hv, fun ok sz => my_realloc_of_invalid ok st p sz hp hv⟩

theorem c10_split_reuse_witness :
    (my_malloc true
      (my_malloc true
        (my_free (my_malloc true (my_malloc true initState 100).2 8).2 4136)
        8).2
      40).1 = some 4184 ∧
    blockAt stSplitReuse.blocks 4144 = some ⟨4144, 56, false, none⟩ ∧
    my_free stSplitReuse 4184 = stSplitReuse ∧
    my_realloc true stSplitReuse 4184 100 = (none, stSplitReuse) := by
  have h := c10_split_block_ptr_uninitialized.2.2.2 stSplitReuse 4184
    ⟨4144, 56, false, none⟩ (by decide) (by decide) rfl
  exact ⟨by decide, by decide, h.1, h.2 true 100⟩

end Alloc

namespace Alloc

theorem findBestAux_sound (s : Nat) (l : List Block) (dif : Nat) (best : Option Block)
    (hinv : ∀ b0, best = some b0 → b0.free = true ∧ s < b0.size ∧ b0.size - s = dif) :
    ∀ b, findBestAux s l dif best = some b →
      b.free = true ∧ s ≤ b.size ∧ b.size - s ≤ dif := by
  induction l generalizing dif best with
  | nil =>
    intro b hb
    rw [findBestAux] at hb
    obtain ⟨h1, h2, h3⟩ := hinv b hb
    exact ⟨h1, le_of_lt h2, le_of_eq h3⟩
  | cons h rest ih =>
    intro b hb
    rw [findBestAux] at hb
    by_cases he : h.free = true ∧ h.size = s
    · rw [if_pos he] at hb
      obtain rfl : h = b := Option.some_inj.mp hb
      exact ⟨he.1, le_of_eq he.2.symm, by simp [he.2]⟩
    · rw [if_neg he] at hb
      by_cases hu : h.free = true ∧ s < h.size ∧ h.size - s < dif
      · rw [if_pos hu] at hb
        have hrec := ih (h.size - s) (some h)
          (fun b0 e => by
            obtain rfl : h = b0 := Option.some_inj.mp e
            exact ⟨hu.1, hu.2.1, rfl⟩) b hb
        exact ⟨hrec.1, hrec.2.1, le_trans hrec.2.2 (le_of_lt hu.2.2)⟩
      · rw [if_neg hu] at hb
        exact ih dif best hinv b hb

theorem findBestAux_min (s : Nat) (l : List Block) (dif : Nat) (best : Option Block)
    (hinv : ∀ b0, best = some b0 → b0.free = true ∧ s < b0.size ∧ b0.size - s = dif) :
    ∀ b c, findBestAux s l dif best = some b → c ∈ l → c.free = true → s ≤ c.size →
      b.size - s ≤ c.size - s := by
  induction l generalizing dif best with
  | nil =>
    intro b c _ hc
    exact absurd hc (List.not_mem_nil c)
  | cons h rest ih =>
    intro b c hb hc hcf hcs
    rw [findBestAux] at hb
    by_cases he : h.free = true ∧ h.size = s
    · rw [if_pos he] at hb
      obtain rfl : h = b := Option.some_inj.mp hb
      simp [he.2]
    · rw [if_neg he] at hb
      by_cases hu : h.free = true ∧ s < h.size ∧ h.size - s < dif
      · rw [if_pos hu] at hb
        have hinv2 : ∀ b0, (some h : Option Block) = some b0 →
            b0.free = true ∧ s < b0.size ∧ b0.size - s = h.size - s := fun b0 e => by
          obtain rfl : h = b0 := Option.some_inj.mp e
          exact ⟨hu.1, hu.2.1, rfl⟩
        rcases List.mem_cons.mp hc with rfl | hcr
        · exact (findBestAux_sound s rest (c.size - s) (some c) hinv2 b hb).2.2
        · exact ih (h.size - s) (some h) hinv2 b c hb hcr hcf hcs
      · rw [if_neg hu] at hb
        rcases List.mem_cons.mp hc with rfl | hcr
        · have hne : c.size ≠ s := fun hx => he ⟨hcf, hx⟩
          have hlt : s < c.size := lt_of_le_of_ne hcs (Ne.symm hne)
          have hge : dif ≤ c.size - s := by
            by_contra hx
            exact hu ⟨hcf, hlt, lt_of_not_ge hx⟩
          exact le_trans (findBestAux_sound s rest dif best hinv b hb).2.2 hge
        · exact ih dif best hinv b c hb hcr hcf hcs

theorem findBestAux_progress (s : Nat) (l : List Block) (dif : Nat) (b0 : Block) :
    findBestAux s l dif (some b0) ≠ none := by
  induction l generalizing dif b0 with
  | nil => simp [findBestAux]
  | cons h rest ih =>
    rw [findBestAux]
    by_cases he : h.free = true ∧ h.size = s
    · simp [he]
    · rw [if_neg he]
      by_cases hu : h.free = true ∧ s < h.size ∧ h.size - s < dif
      · rw [if_pos hu]
        exact ih (h.size - s) h
      · rw [if_neg hu]
        exact ih dif b0

theorem findBestAux_exists (s : Nat) (l : List Block) (dif : Nat) (best : Option Block)
    (hw : ∃ c ∈ l, c.free = true ∧ (c.size = s ∨ (s < c.size ∧ c.size - s < dif))) :
    findBestAux s l dif best ≠ none := by
  induction l generalizing dif best with
  | nil =>
    obtain ⟨c, hc, _⟩ := hw
    exact absurd hc (List.not_mem_nil c)
  | cons h rest ih =>
    rw [findBestAux]
    by_cases he : h.free = true ∧ h.size = s
    · simp [he]
    · rw [if_neg he]
      by_cases hu : h.free = true ∧ s < h.size ∧ h.size - s < dif
      · rw [if_pos hu]
        exact findBestAux_progress s rest (h.size - s) h
      · rw [if_neg hu]
        apply ih dif best
        obtain ⟨c, hc, hcf, hcase⟩ := hw
        rcases List.mem_cons.mp hc with rfl | hcr
        · rcases hcase with hex | ⟨hlt, hdif⟩
          · exact absurd ⟨hcf, hex⟩ he
          · exact absurd ⟨hcf, hlt, hdif⟩ hu
        · exact ⟨c, hcr, hcf, hcase⟩

theorem findBestAux_mem (s : Nat) (l : List Block) (dif : Nat) (best : Option Block) :
    ∀ b, findBestAux s l dif best = some b → b ∈ l ∨ best = some b := by
  induction l generalizing dif best with
  | nil =>
    intro b hb
    rw [findBestAux] at hb
    exact Or.inr hb
  | cons h rest ih =>
    intro b hb
    rw [findBestAux] at hb
    by_cases he : h.free = true ∧ h.size = s
    · rw [if_pos he] at hb
      obtain rfl : h = b := Option.some_inj.mp hb
      exact Or.inl (List.mem_cons_self h rest)
    · rw [if_neg he] at hb
      by_cases hu : h.free = true ∧ s < h.size ∧ h.size - s < dif
      · rw [if_pos hu] at hb
        rcases ih (h.size - s) (some h) b hb with hmem | heq
        · exact Or.inl (List.mem_cons_of_mem h hmem)
        · obtain rfl : h = b := Option.some_inj.mp heq
          exact Or.inl (List.mem_cons_self h rest)
      · rw [if_neg hu] at hb
        rcases ih dif best b hb with hmem | heq
        · exact Or.inl (List.mem_cons_of_mem h hmem)
        · exact Or.inr heq

theorem findBestAux_slack (s : Nat) (l : List Block) :
    ∀ (dif : Nat) (best : Option Block), dif ≤ PAGESIZE →
      (∀ b0, best = some b0 → b0.size - s < PAGESIZE) →
      ∀ b, findBestAux s l dif best = some b → b.size = s ∨ b.size - s < PAGESIZE := by
  induction l with
  | nil =>
    intro dif best _ hbest b hb
    rw [findBestAux] at hb
    exact Or.inr (hbest b hb)
  | cons h rest ih =>
    intro dif best hdif hbest b hb
    rw [findBestAux] at hb
    by_cases he : h.free = true ∧ h.size = s
    · rw [if_pos he] at hb
      obtain rfl : h = b := Option.some_inj.mp hb
      exact Or.inl he.2
    · rw [if_neg he] at hb
      by_cases hu : h.free = true ∧ s < h.size ∧ h.size - s < dif
      · rw [if_pos hu] at hb
        refine ih (h.size - s) (some h) (le_of_lt (lt_of_lt_of_le hu.2.2 hdif)) ?_ b hb
        intro b0 e
        obtain rfl : h = b0 := Option.some_inj.mp e
        exact lt_of_lt_of_le hu.2.2 hdif
      · rw [if_neg hu] at hb
        exact ih dif best hdif hbest b hb

theorem findBestAux_exact (s : Nat) (l : List Block) :
    ∀ e, firstExactFit l s = some e → ∀ dif best, findBestAux s l dif best = some e := by
  induction l with
  | nil =>
    intro e he
    rw [firstExactFit] at he
    exact absurd he (by simp)
  | cons h rest ih =>
    intro e he dif best
    rw [firstExactFit] at he
    rw [findBestAux]
    by_cases hx : h.free = true ∧ h.size = s
    · rw [if_pos hx] at he
      rw [if_pos hx]
      exact he
    · rw [if_neg hx] at he
      rw [if_neg hx]
      by_cases hu : h.free = true ∧ s < h.size ∧ h.size - s < dif
      · rw [if_pos hu]
        exact ih e he (h.size - s) (some h)
      · rw [if_neg hu]
        exact ih e he dif best

/-- Claim C3, amended (corrected).  Under BestFit, whenever the search
returns a block it is a free block of the ledger with size at least the
(aligned) request that minimizes (size − requested) among all sufficient
free blocks, and a first exact-size match is returned immediately.  But —
against the original claim — a block is returned if and ONLY if some free
block matches exactly or has slack strictly below PAGESIZE (4096): the walk
starts its running difference at PAGESIZE, so every returned block is exact
or has slack below PAGESIZE, and when every sufficient free block has slack
≥ PAGESIZE and none is exact the search returns NULL and the heap is
extended (see the counterexample). -/
theorem c3_best_fit_amended (bs : List Block) (s : Nat) :
    (∀ b, find_block bs 1 s = some b →
      b ∈ bs ∧ b.free = true ∧ s ≤ b.size ∧
      (b.size = s ∨ b.size - s < PAGESIZE) ∧
      ∀ c ∈ bs, c.free = true → s ≤ c.size → b.size - s ≤ c.size - s) ∧
    (∀ e, firstExactFit bs s = some e → find_block bs 1 s = some e) ∧
    ((∃ c ∈ bs, c.free = true ∧ (c.size = s ∨ (s < c.size ∧ c.size - s < PAGESIZE))) →
      ∃ b, find_block bs 1 s = some b) ∧
    ((∀ c ∈ bs, c.free = true → s ≤ c.size → c.size ≠ s ∧ PAGESIZE ≤ c.size - s) →
      find_block bs 1 s = none) := by
  have hfb : find_block bs 1 s = findBestAux s bs PAGESIZE none := by
    simp [find_block]
  have hinv : ∀ b0 : Block, (none : Option Block) = some b0 →
      b0.free = true ∧ s < b0.size ∧ b0.size - s = PAGESIZE := by
    intro b0 hx
    exact absurd hx (by simp)
  have hnone : ∀ b0 : Block, (none : Option Block) = some b0 →
      b0.size - s < PAGESIZE := by
    intro b0 hx
    exact absurd hx (by simp)
  have hchar : ∀ b, find_block bs 1 s = some b →
      b ∈ bs ∧ b.free = true ∧ s ≤ b.size ∧
      (b.size = s ∨ b.size - s < PAGESIZE) ∧
      ∀ c ∈ bs, c.free = true → s ≤ c.size → b.size - s ≤ c.size - s := by
    intro b hb
    rw [hfb] at hb
    have hs := findBestAux_sound s bs PAGESIZE none hinv b hb
    have hm := findBestAux_mem s bs PAGESIZE none b hb
    refine ⟨?_, hs.1, hs.2.1,
      findBestAux_slack s bs PAGESIZE none (le_refl PAGESIZE) hnone b hb,
      fun c hc hcf hcs => findBestAux_min s bs PAGESIZE none hinv b c hb hc hcf hcs⟩
    rcases hm with hx | hx
    · exact hx
    · exact absurd hx (by simp)
  refine ⟨hchar, ?_, ?_, ?_⟩
  · intro e he
    rw [hfb]
    exact findBestAux_exact s bs e he PAGESIZE none
  · intro hw
    rw [hfb]
    rcases hne : findBestAux s bs PAGESIZE none with _ | b
    · exact absurd hne (findBestAux_exists s bs PAGESIZE none hw)
    · exact ⟨b, rfl⟩
  · intro hall
    rcases hne : find_block bs 1 s with _ | b
    · rfl
    · obtain ⟨hmem, hfree, hfit, hslack, _⟩ := hchar b hne
      obtain ⟨hnex, hbig⟩ := hall b hmem hfree hfit
      rcases hslack with hx | hx
      · exact absurd hx hnex
      · exact absurd hx (not_lt.mpr hbig)

theorem c3_best_fit_witness :
    (∃ b, find_block [⟨4096, 16, true, some 4136⟩] 1 8 = some b) ∧
    find_block [⟨4096, 4104, true, some 4136⟩] 1 8 = none :=
  ⟨(c3_best_fit_amended [⟨4096, 16, true, some 4136⟩] 8).2.2.1
     ⟨⟨4096, 16, true, some 4136⟩, by decide, by decide, Or.inr (by decide)⟩,
   (c3_best_fit_amended [⟨4096, 4104, true, some 4136⟩] 8).2.2.2 (by decide)⟩

end Alloc

namespace Alloc

theorem maxLive_foldl_acc (bs : List Block) (acc : Nat) :
    bs.foldl (fun m b => if !b.free && decide (m < b.size) then b.size else m) acc =
      max acc (specMaxLive bs) := by
  induction bs generalizing acc with
  | nil => simp [specMaxLive]
  | cons h rest ih =>
    rw [List.foldl_cons]
    by_cases hf : h.free = true
    · have hstep : (if !h.free && decide (acc < h.size) then h.size else acc) = acc := by
        simp [hf]
      rw [hstep, ih]
      have : specMaxLive (h :: rest) = specMaxLive rest := by
        simp [specMaxLive, List.filter_cons, hf]
      rw [this]
    · have hf2 : h.free = false := Bool.eq_false_iff.mpr hf
      have hstep : (if !h.free && decide (acc < h.size) then h.size else acc) =
          max acc h.size := by
        simp only [hf2, Bool.not_false, Bool.true_and, decide_eq_true_eq]
        split <;> omega
      rw [hstep, ih]
      have : specMaxLive (h :: rest) = max h.size (specMaxLive rest) := by
        simp [specMaxLive, List.filter_cons, hf2]
      rw [this]
      omega

theorem fragSums_foldl_acc (bs : List Block) (maxs : Nat) :
    ∀ a c : Nat,
      bs.foldl
        (fun acc b =>
          ((if b.free && decide (b.size < maxs) then acc.1 + b.size else acc.1),
           acc.2 + b.size))
        (a, c) =
        (a + sumFreeBelow bs maxs, c + specTotal bs) := by
  induction bs with
  | nil =>
    intro a c
    simp [sumFreeBelow, specTotal]
  | cons h rest ih =>
    intro a c
    simp only [List.foldl_cons]
    rw [ih]
    by_cases hf : h.free = true
    · by_cases hm : h.size < maxs
      · simp [sumFreeBelow, specTotal, List.filter_cons, hf, hm, Prod.mk.injEq]
        omega
      · simp [sumFreeBelow, specTotal, List.filter_cons, hf, hm, Prod.mk.injEq]
        omega
    · have hf2 : h.free = false := Bool.eq_false_iff.mpr hf
      simp [sumFreeBelow, specTotal, List.filter_cons, hf2, Prod.mk.injEq]
      omega

/-- Claim C8 (confirmed).  The two loops of `external_frag` compute exactly
the quantities the spec names: the maximum size among not-free blocks, the
sum of the free-block sizes strictly below it, and the sum of all sizes; the
result is `unusable_free / total * 100`, with the 0/0 NaN on an empty ledger
modelled by the `none` sentinel (never an exception), and a ledger holding
exactly one not-free block of positive size and no free block yields 0. -/
theorem c8_external_frag_formula (bs : List Block) :
    maxLiveSize bs = specMaxLive bs ∧
    external_frag bs =
      (if specTotal bs = 0 then none
       else some ((specUnusableFree bs : ℚ) / (specTotal bs : ℚ) * 100)) ∧
    external_frag [] = none ∧
    (∀ b : Block, b.free = false → 0 < b.size → external_frag [b] = some 0) := by
  have hmax : maxLiveSize bs = specMaxLive bs := by
    rw [maxLiveSize, maxLive_foldl_acc]
    omega
  refine ⟨hmax, ?_, by simp [external_frag, fragSums], ?_⟩
  · rw [external_frag, fragSums, fragSums_foldl_acc, hmax]
    simp [specUnusableFree]
  · intro b hf hs
    have ht : b.size ≠ 0 := Nat.pos_iff_ne_zero.mp hs
    simp [external_frag, maxLiveSize, fragSums, hf, hs, ht]

theorem c8_external_frag_witness :
    external_frag [⟨4096, 8, false, some 4136⟩] = some 0 :=
  (c8_external_frag_formula [⟨4096, 8, false, some 4136⟩]).2.2.2
    ⟨4096, 8, false, some 4136⟩ rfl (by decide)

end Alloc
